import Mathlib

set_option maxRecDepth 1000000

/-!
Shallow embedding of the core logic of the readby repository.

Two scripts carry the logic the specification describes:

* `src/trim_silence.py` — `detect_and_trim_silence` scans an audio file in
  10 ms chunks for a sustained run of quiet chunks and cuts the file at the
  start of that run.
* `src/llm_enhanced_vocalize.py` — `analyze_script` annotates each input
  line with a structured record obtained from an external language-model
  call (`analyze_line_with_llm`), persisting progress after every line and
  resuming from the progress store's length on restart.

Modelling conventions:

* Python strings are lists of characters (`Str`).
* The pydub audio object is a record of its millisecond length, overall
  loudness and per-chunk loudness.  Decibel levels (Python floats) are
  modelled as integers: the scripts only add and compare them, the script
  defaults and every value in the claims are integral, and any fixed
  rescaling embeds fractional values in the same theory.
* The external LLM call is an opaque deterministic function (`Oracle`) of
  the data the user prompt is built from: the highlighted context string
  and the set of previously seen character values.  A `none` result stands
  for any exception inside the `try` block (API failure, JSON error).
* File side effects (progress-store writes, audio export, the enhanced
  script files) and `time.sleep` are outside the model: the functions
  return the values the scripts compute.  Reading the input file and
  tokenising (`split_text_into_chunks`, external `tiktoken`) are abstracted
  as the line list `lines` and a token-count function `tok`.
-/

/-- Python strings, modelled as lists of characters. -/
abbrev Str := List Char

namespace ReadBy

/-! ### Silence trimmer: src/trim_silence.py -/

/-- An audio buffer as `pydub` presents it to `detect_and_trim_silence`:
`len` is the duration in milliseconds (`len(audio)`), `dBFS` the overall
loudness of the track (`audio.dBFS`), and `chunkDB i` the loudness of the
10 ms slice `audio[i:i+10]` (`chunk.dBFS`), abstracted as a function of
the chunk's millisecond offset. -/
structure AudioBuf where
  len : ℕ
  dBFS : ℤ
  chunkDB : ℕ → ℤ

/-- Number of iterations of `range(0, len(audio) - chunk_size, chunk_size)`
with `chunk_size = 10`; the scanned chunk offsets are `0, 10, …,
10*(numChunks len - 1)`.  Natural subtraction mirrors Python's empty range
when `len(audio) - chunk_size <= 0`. -/
def numChunks (len : ℕ) : ℕ := (len - 10 + 9) / 10

/-- Whether the chunk at offset `i` is classified silent: its own decibel
level is below `audio.dBFS + silence_threshold_db` (the `silence_threshold`
computed at the top of `detect_and_trim_silence`). -/
def silentChunk (audio : AudioBuf) (silence_threshold_db : ℤ) (i : ℕ) : Bool :=
  decide (audio.chunkDB i < audio.dBFS + silence_threshold_db)

/-- The scanning loop of `detect_and_trim_silence`: iterate over the chunk
offsets, maintaining `silence_starts`.  A silent chunk appends its offset;
a non-silent chunk resets a non-empty run.  After each chunk, if the run
length times the 10 ms chunk size reaches `min_silence_duration`, stop and
return the first offset of the run (`silence_starts[0]`; on an empty run
that subscript is Python's `IndexError`, which the surrounding `try` turns
into the `none` result — matched here by `head?`). -/
def scanLoop (silent : ℕ → Bool) (min_silence_duration : ℕ) :
    List ℕ → List ℕ → Option ℕ
  | [], _ => Option.none
  | i :: rest, silence_starts =>
    let starts1 :=
      if silent i then silence_starts ++ [i]
      else if 0 < silence_starts.length then ([] : List ℕ)
      else silence_starts
    if min_silence_duration ≤ starts1.length * 10 then starts1.head?
    else scanLoop silent min_silence_duration rest starts1

/-- `detect_and_trim_silence` (src/trim_silence.py, lines 10-71), with file
I/O abstracted away: `some p` means a cut point was found at offset `p` and
the prefix `audio[:p]` (of length exactly `p` ms) is exported; `none` means
no extended silence was found (or an error occurred) and no file is
written. -/
def detect_and_trim_silence (audio : AudioBuf) (silence_threshold_db : ℤ)
    (min_silence_duration : ℕ) : Option ℕ :=
  scanLoop (silentChunk audio silence_threshold_db) min_silence_duration
    (List.range' 0 (numChunks audio.len) 10) []

/-! ### Line annotator with resume: src/llm_enhanced_vocalize.py -/

/-- Python values occurring in an annotation record: the JSON schema makes
a successful LLM response deliver strings (and a string list for
`sound_effects`), while the fallback record built on analyzer failure uses
Python `False`, `None`, `5` and `1.0` directly. -/
inductive PyVal where
  | vStr : Str → PyVal
  | vBool : Bool → PyVal
  | vInt : ℤ → PyVal
  | vFloat : ℚ → PyVal
  | vNone : PyVal
  deriving DecidableEq

/-- Whether a Python value is a `str` (the only values `", ".join` accepts;
joining a set containing `None` raises `TypeError`). -/
def PyVal.isStr : PyVal → Bool
  | vStr _ => true
  | _ => false

/-- The analysis dictionary for one line: the nine fields of the JSON
schema in `analyze_line_with_llm` (and of the fallback default record). -/
structure Analysis where
  is_dialogue : PyVal
  character : PyVal
  emotion : PyVal
  intensity : PyVal
  pause_after : PyVal
  voice_instructions : PyVal
  is_scene_transition : PyVal
  is_action : PyVal
  sound_effects : List PyVal
  deriving DecidableEq

/-- The default values returned by `analyze_line_with_llm` when the
analyzer call raises (src/llm_enhanced_vocalize.py, lines 110-120). -/
def defaultAnalysis : Analysis where
  is_dialogue := PyVal.vBool false
  character := PyVal.vNone
  emotion := PyVal.vStr ("neutral".data)
  intensity := PyVal.vInt 5
  pause_after := PyVal.vFloat 1
  voice_instructions := PyVal.vStr ("Read in a natural, clear voice.".data)
  is_scene_transition := PyVal.vBool false
  is_action := PyVal.vBool false
  sound_effects := []

/-- One entry of the progress store: the analysis dictionary augmented with
`original_text` and `token_count` (src/llm_enhanced_vocalize.py, lines
155-156). -/
structure Record where
  analysis : Analysis
  original_text : Str
  token_count : ℕ
  deriving DecidableEq

/-- The external language-model call, an opaque deterministic capability.
Its arguments are the data the user prompt varies over: the context window
with the current line highlighted, and the set of previously seen character
values.  `none` models any exception inside the `try` block. -/
def Oracle := Str → Finset PyVal → Option Analysis

/-- Python `str.replace` on character lists: replace every non-overlapping
occurrence of `pat`, scanning left to right.  Structural recursion on a
fuel argument equal to the string length (each step consumes at least one
character, so the fuel never runs out); the empty pattern — impossible at
the call site, since blank lines are filtered out — leaves the string
unchanged. -/
def replaceAllFuel (pat repl : Str) : ℕ → Str → Str
  | 0, s => s
  | _ + 1, [] => []
  | fuel + 1, c :: rest =>
    if pat.isPrefixOf (c :: rest) ∧ pat ≠ [] then
      repl ++ replaceAllFuel pat repl fuel (List.drop (pat.length - 1) rest)
    else c :: replaceAllFuel pat repl fuel rest

/-- Python `context.replace(line, "[CURRENT LINE]: " + line)`'s underlying
string replacement. -/
def replaceAll (pat repl s : Str) : Str := replaceAllFuel pat repl s.length s

/-- The marker prepended to the current line inside the context. -/
def highlightMark : Str := ("[CURRENT LINE]: ".data)

/-- The context window slice `context_lines[start_idx:end_idx]` with
`start_idx = max(0, line_index - 5)` (natural subtraction) and
`end_idx = min(total_lines, line_index + 6)`
(src/llm_enhanced_vocalize.py, lines 35-37). -/
def contextWindow (context_lines : List Str) (line_index total_lines : ℕ) :
    List Str :=
  (context_lines.take (min total_lines (line_index + 6))).drop (line_index - 5)

/-- `"\n".join(...)` of the window followed by
`context.replace(line, f"[CURRENT LINE]: {line}")`
(src/llm_enhanced_vocalize.py, lines 37-40): every occurrence of the
current line's text in the joined window is marked. -/
def contextWithHighlight (line : Str) (context_lines : List Str)
    (line_index total_lines : ℕ) : Str :=
  replaceAll line (highlightMark ++ line)
    (List.intercalate ("\n".data) (contextWindow context_lines line_index total_lines))

/-- `analyze_line_with_llm` (src/llm_enhanced_vocalize.py, lines 32-120).
Builds the highlighted context, then runs the `try` block: constructing the
user prompt evaluates `", ".join(characters_seen)`, which raises `TypeError`
as soon as the set holds a non-string (the `None` character of a default
record); any failure — that one, the API call, or JSON parsing — yields the
default values. -/
def analyze_line_with_llm (llm : Oracle) (line : Str) (context_lines : List Str)
    (line_index total_lines : ℕ) (characters_seen : Finset PyVal) : Analysis :=
  if ∀ v ∈ characters_seen, v.isStr = true then
    match llm (contextWithHighlight line context_lines line_index total_lines)
        characters_seen with
    | Option.some a => a
    | Option.none => defaultAnalysis
  else defaultAnalysis

/-- The record appended for line `i` by one iteration of the loop in
`analyze_script` (src/llm_enhanced_vocalize.py, lines 150-160): the
analysis of line `i` in the context of all lines, augmented with the
original text and its token count. -/
def recordFor (llm : Oracle) (tok : Str → ℕ) (lines : List Str) (i : ℕ)
    (characters_seen : Finset PyVal) : Record where
  analysis := analyze_line_with_llm llm (lines.getD i []) lines i lines.length
    characters_seen
  original_text := lines.getD i []
  token_count := tok (lines.getD i [])

/-- The `for i in range(start_index, len(lines))` loop of `analyze_script`:
process each remaining index in order, appending the record to `analyses`
and adding the record's `character` value to `characters_seen`. -/
def annotateGo (llm : Oracle) (tok : Str → ℕ) (lines : List Str) :
    List ℕ → List Record → Finset PyVal → List Record
  | [], analyses, _ => analyses
  | i :: rest, analyses, characters_seen =>
    let r := recordFor llm tok lines i characters_seen
    annotateGo llm tok lines rest (analyses ++ [r])
      (insert r.analysis.character characters_seen)

/-- `analyze_script` (src/llm_enhanced_vocalize.py, lines 122-201).
`store` is the progress file's contents: `none` when the file is missing or
unreadable (both lead to "starting from the beginning"), `some analyses`
when it parsed.  `start_index` is the store length; `characters_seen`
starts empty in every run — it is not rebuilt from the store.  An empty
line list returns the error string; otherwise the final `analyses` list is
returned (and written to the output files). -/
def analyze_script (llm : Oracle) (tok : Str → ℕ) (lines : List Str)
    (store : Option (List Record)) : Except Str (List Record) :=
  if lines.isEmpty then Except.error ("Failed to read input file".data)
  else
    let analyses := store.getD []
    let start_index := analyses.length
    Except.ok (annotateGo llm tok lines
      (List.range' start_index (lines.length - start_index)) analyses ∅)

/-- The record sequence produced by an uninterrupted run (no progress
store). -/
def fullRecords (llm : Oracle) (tok : Str → ℕ) (lines : List Str) :
    List Record :=
  annotateGo llm tok lines (List.range' 0 lines.length) [] ∅

/-- The `characters_seen` set accumulated over a list of records: each
record's `character` value inserted in order, starting from the empty
set. -/
def seenSpec (records : List Record) : Finset PyVal :=
  records.foldl (fun s r => insert r.analysis.character s) ∅

/-! ### Lemmas about the silence-trimming scan -/

theorem scanLoop_cons (sil : ℕ → Bool) (d i : ℕ) (rest starts : List ℕ) :
    scanLoop sil d (i :: rest) starts =
      (let starts1 := if sil i then starts ++ [i]
        else if 0 < starts.length then ([] : List ℕ) else starts
       if d ≤ starts1.length * 10 then starts1.head?
       else scanLoop sil d rest starts1) := rfl

/-- A silent chunk extends the run, then the accumulated duration is
checked. -/
theorem scanLoop_cons_silent (sil : ℕ → Bool) (d i : ℕ) (rest starts : List ℕ)
    (h : sil i = true) :
    scanLoop sil d (i :: rest) starts =
      if d ≤ (starts.length + 1) * 10 then (starts ++ [i]).head?
      else scanLoop sil d rest (starts ++ [i]) := by
  rw [scanLoop_cons]
  simp [h]

/-- A non-silent chunk resets the run to empty and, when the minimum
duration is positive, the scan continues with an empty run. -/
theorem scanLoop_cons_loud (sil : ℕ → Bool) (d i : ℕ) (rest starts : List ℕ)
    (h : sil i = false) (hd : 0 < d) :
    scanLoop sil d (i :: rest) starts = scanLoop sil d rest [] := by
  rw [scanLoop_cons]
  cases starts with
  | nil => simp [h]; omega
  | cons a l => simp [h]; omega

/-- Completing a run of silent chunks triggers the cut at the run's first
offset: scanning from offset `10*(b+q)` with the run `[10*b, …, 10*(b+q-1)]`
already accumulated (total below the threshold), if the next `m` chunks are
silent and `q + m` chunks reach `min_silence_duration`, the scan returns
`10*b`. -/
theorem scanLoop_trigger (sil : ℕ → Bool) (d : ℕ) (m : ℕ) :
    ∀ q b M : ℕ,
      (∀ j, j < m → sil (10 * b + 10 * (q + j)) = true) →
      q * 10 < d → d ≤ (q + m) * 10 → m ≤ M →
      scanLoop sil d (List.range' (10 * b + 10 * q) M 10)
          (List.range' (10 * b) q 10)
        = Option.some (10 * b) := by
  induction m with
  | zero => intro q b M _ hq hd _; omega
  | succ m ih =>
    intro q b M hs hq hd hM
    obtain ⟨R, hR⟩ : ∃ R, M = R + 1 := ⟨M - 1, by omega⟩
    subst hR
    rw [List.range'_succ]
    rw [scanLoop_cons_silent sil d _ _ _ (by simpa using hs 0 (by omega))]
    rw [List.length_range']
    by_cases hcase : d ≤ (q + 1) * 10
    · rw [if_pos hcase]
      rw [show (10 * b + 10 * q : ℕ) = 10 * b + 10 * q from rfl, ← List.range'_concat]
      rw [List.range'_succ]
      rfl
    · rw [if_neg hcase]
      rw [← List.range'_concat]
      rw [show (10 * b + 10 * q + 10 : ℕ) = 10 * b + 10 * (q + 1) by ring]
      exact ih (q + 1) b R
        (fun j hj => by
          have e : 10 * b + 10 * (q + 1 + j) = 10 * b + 10 * (q + (j + 1)) := by ring
          rw [e]; exact hs (j + 1) (by omega))
        (by omega) (by omega) (by omega)

/-- Crossing a prefix `[0, t)` of chunks that contains no run reaching
`min_silence_duration` and whose last chunk is non-silent leaves the scan
at offset `10*t` with an empty run. -/
theorem scanLoop_passthrough (sil : ℕ → Bool) (d t M : ℕ) (n : ℕ) :
    ∀ k b q : ℕ, k + n = t → t ≤ M → b + q = k →
      (∀ j, j < q → sil (10 * (b + j)) = true) →
      q * 10 < d → 0 < d →
      (0 < t → sil (10 * (t - 1)) = false) →
      (∀ s r, s + r ≤ t → d ≤ r * 10 → ∃ j, j < r ∧ sil (10 * (s + j)) = false) →
      scanLoop sil d (List.range' (10 * k) (M - k) 10) (List.range' (10 * b) q 10)
        = scanLoop sil d (List.range' (10 * t) (M - t) 10) [] := by
  induction n with
  | zero =>
    intro k b q hk hM hbq hsil hqd hd hreset _
    cases q with
    | zero =>
      obtain rfl : k = t := by omega
      rfl
    | succ q =>
      exfalso
      have h1 : sil (10 * (b + q)) = true := hsil q (by omega)
      have h2 : sil (10 * (t - 1)) = false := hreset (by omega)
      rw [show b + q = t - 1 by omega] at h1
      rw [h1] at h2
      simp at h2
  | succ n ih =>
    intro k b q hk hM hbq hsil hqd hd hreset hnorun
    obtain ⟨R, hR⟩ : ∃ R, M - k = R + 1 := ⟨M - k - 1, by omega⟩
    rw [hR, List.range'_succ]
    by_cases hs : sil (10 * k) = true
    · rw [scanLoop_cons_silent sil d _ _ _ hs]
      rw [List.length_range']
      have hnotrig : ¬ d ≤ (q + 1) * 10 := by
        intro hcon
        obtain ⟨j, hj, hfalse⟩ := hnorun b (q + 1) (by omega) (by omega)
        rcases Nat.lt_or_ge j q with hlt | hge
        · rw [hsil j hlt] at hfalse; simp at hfalse
        · have : j = q := by omega
          subst this
          rw [show b + j = k by omega] at hfalse
          rw [hs] at hfalse
          simp at hfalse
      rw [if_neg hnotrig]
      rw [show (10 * k : ℕ) = 10 * b + 10 * q by omega, ← List.range'_concat]
      rw [show (10 * b + 10 * q + 10 : ℕ) = 10 * (k + 1) by omega]
      rw [show R = M - (k + 1) by omega]
      exact ih (k + 1) b (q + 1) (by omega) hM (by omega)
        (fun j hj => by
          rcases Nat.lt_or_ge j q with hlt | hge
          · exact hsil j hlt
          · have : j = q := by omega
            subst this
            rw [show (10 * (b + j) : ℕ) = 10 * k by omega]
            exact hs)
        (by omega) hd hreset hnorun
    · rw [scanLoop_cons_loud sil d _ _ _ (by simpa using hs) hd]
      rw [show (10 * k + 10 : ℕ) = 10 * (k + 1) by omega]
      rw [show R = M - (k + 1) by omega]
      exact ih (k + 1) (k + 1) 0 (by omega) hM (by omega)
        (fun j hj => absurd hj (by omega)) (by omega) hd hreset hnorun

/-- The scan cuts at the first chunk-aligned run of silent chunks whose
accumulated duration reaches `min_silence_duration`, returning the offset
of the run's first chunk. -/
theorem scanLoop_first_run (sil : ℕ → Bool) (d t c M : ℕ)
    (hd : 0 < d) (hdc : d ≤ c * 10)
    (hrun : ∀ j, j < c → sil (10 * (t + j)) = true)
    (hreset : 0 < t → sil (10 * (t - 1)) = false)
    (hnorun : ∀ s r, s + r ≤ t → d ≤ r * 10 → ∃ j, j < r ∧ sil (10 * (s + j)) = false)
    (hM : t + c ≤ M) :
    scanLoop sil d (List.range' 0 M 10) [] = Option.some (10 * t) := by
  have h1 := scanLoop_passthrough sil d t M t 0 0 0 (by omega) (by omega)
    (by omega) (fun j hj => absurd hj (by omega)) (by omega) hd hreset hnorun
  have h2 := scanLoop_trigger sil d c 0 t (M - t)
    (fun j hj => by
      have e : 10 * t + 10 * (0 + j) = 10 * (t + j) := by ring
      rw [e]; exact hrun j hj)
    (by omega) (by omega) (by omega)
  simp only [Nat.mul_zero, Nat.sub_zero, Nat.add_zero, Nat.zero_add] at h1 h2
  calc scanLoop sil d (List.range' 0 M 10) []
      = scanLoop sil d (List.range' (10 * t) (M - t) 10) [] := by
        have e0 : (0 : ℕ) = 10 * 0 := rfl
        simpa using h1
    _ = Option.some (10 * t) := by simpa using h2

/-! ### Concrete audio buffers used in claim instances -/

/-- The synthetic buffer of the specification's trimming example:
2000 ms loud, 1500 ms silent, 2000 ms loud.  Loud chunks sit at -1 dB,
silent chunks at -90 dB, the overall loudness at -3 dB, so with the -50 dB
relative threshold the silent chunks (and only they) fall below
`dBFS - 50 = -53`. -/
def exBuf : AudioBuf :=
  ⟨5500, -3, fun i => if i < 2000 then -1 else if i < 3500 then -90 else -1⟩

/-- A buffer of 1000 ms that is silent throughout: every chunk sits 100 dB
below the overall loudness, far under the -50 dB relative threshold. -/
def silentBuf : AudioBuf := ⟨1000, 0, fun _ => -100⟩

/-! ### Claim theorems about the silence trimmer -/

/-- C9: For every audio buffer shorter than one analysis chunk (less than
10 ms), trim returns "no silence found" and produces no output file: the
chunk scan is empty, so `detect_and_trim_silence` returns `none`. -/
theorem short_buffer_no_trim (audio : AudioBuf) (silence_threshold_db : ℤ)
    (min_silence_duration : ℕ) (h : audio.len < 10) :
    detect_and_trim_silence audio silence_threshold_db min_silence_duration
      = Option.none := by
  unfold detect_and_trim_silence
  have h0 : audio.len - 10 = 0 := by omega
  unfold numChunks
  rw [h0]
  rfl

theorem short_buffer_no_trim_witness :
    (⟨5, 0, fun _ => 0⟩ : AudioBuf).len < 10 ∧
      detect_and_trim_silence ⟨5, 0, fun _ => 0⟩ (-50) 1000 = Option.none :=
  ⟨by decide, short_buffer_no_trim ⟨5, 0, fun _ => 0⟩ (-50) 1000 (by decide)⟩

/-- C3 counterexample: `silentBuf` is 1000 ms long and silent from the very
first chunk (every chunk sits at -100 dB, below the -50 dB relative
threshold), yet with `min_silence_duration = 1000` the scan — which visits
only the 99 chunks of `range(0, 990, 10)` — never accumulates 1000 ms of
run and returns `none` ("no silence found"), not an empty prefix. -/
theorem all_silent_short_counterexample :
    silentChunk silentBuf (-50) 0 = true ∧
      silentChunk silentBuf (-50) 990 = true ∧
      detect_and_trim_silence silentBuf (-50) 1000 = Option.none := by
  decide

/-- C3 (amended): a buffer silent for its entire duration trims to an empty
prefix (`some 0`) provided the scanned chunks can accumulate
`min_silence_duration`: the buffer must contain at least
`⌈min_silence_duration/10⌉` scanned chunks.  (A fully silent buffer shorter
than that — e.g. 1000 ms of silence with the default 1000 ms minimum —
returns "no silence found" instead.) -/
theorem trim_all_silent (audio : AudioBuf) (silence_threshold_db : ℤ)
    (d : ℕ) (hd : 0 < d)
    (hsil : ∀ i, audio.chunkDB i < audio.dBFS + silence_threshold_db)
    (hlen : (d + 9) / 10 ≤ numChunks audio.len) :
    detect_and_trim_silence audio silence_threshold_db d = Option.some 0 := by
  unfold detect_and_trim_silence
  have key := scanLoop_first_run (silentChunk audio silence_threshold_db) d 0
    ((d + 9) / 10) (numChunks audio.len) hd (by omega)
    (fun j _ => by simp [silentChunk, hsil])
    (fun h0 => absurd h0 (by omega))
    (fun s r hsr hdr => absurd hdr (by omega))
    (by omega)
  simpa using key

theorem trim_all_silent_witness :
    (0 : ℕ) < 1000 ∧
      detect_and_trim_silence ⟨1011, 0, fun _ => -100⟩ (-50) 1000
        = Option.some 0 :=
  ⟨by decide,
    trim_all_silent ⟨1011, 0, fun _ => -100⟩ (-50) 1000 (by decide)
      (fun i => by show (-100 : ℤ) < 0 + -50; decide) (by decide)⟩

/-- C2: if the buffer's first chunk-aligned silent run that can reach
`min_silence_duration` starts at offset `T = 10*t` — the run's `c` chunks
are silent, the chunk before it (if any) is not, no earlier window of `c`
chunks is all-silent, and non-silence follows the run inside the buffer —
then trim cuts exactly at `T`, the offset of the first chunk of the run
(not at the chunk that triggered the threshold); and in particular, with
threshold -50 dB and minimum duration 1000 ms on the synthetic buffer
[2000 ms loud][1500 ms silent][2000 ms loud], the trimmed output has length
exactly 2000 ms. -/
theorem trim_cut_at_first_run :
    (∀ (audio : AudioBuf) (silence_threshold_db : ℤ) (t c : ℕ),
      0 < c →
      (∀ j, j < c →
        audio.chunkDB (10 * (t + j)) < audio.dBFS + silence_threshold_db) →
      ¬ (audio.chunkDB (10 * (t + c)) < audio.dBFS + silence_threshold_db) →
      (0 < t →
        ¬ (audio.chunkDB (10 * (t - 1)) < audio.dBFS + silence_threshold_db)) →
      (∀ s, s + c ≤ t → ∃ j, j < c ∧
        ¬ (audio.chunkDB (10 * (s + j)) < audio.dBFS + silence_threshold_db)) →
      10 * (t + c) < audio.len →
      detect_and_trim_silence audio silence_threshold_db (10 * c)
        = Option.some (10 * t)) ∧
    detect_and_trim_silence exBuf (-50) 1000 = Option.some 2000 := by
  constructor
  · intro audio silence_threshold_db t c hc hrun hafter hbefore hnorun hlen
    unfold detect_and_trim_silence
    exact scanLoop_first_run (silentChunk audio silence_threshold_db) (10 * c)
      t c (numChunks audio.len) (by omega) (by omega)
      (fun j hj => by simpa [silentChunk] using hrun j hj)
      (fun ht => by simpa [silentChunk] using hbefore ht)
      (fun s r hsr hdr => by
        obtain ⟨j, hj, hn⟩ := hnorun s (by omega)
        exact ⟨j, by omega, by simpa [silentChunk] using hn⟩)
      (by unfold numChunks; rw [Nat.le_div_iff_mul_le (by omega)]; omega)
  · decide

theorem trim_cut_at_first_run_witness :
    (0 : ℕ) < 2 ∧
      detect_and_trim_silence
          ⟨41, 0, fun i => if i < 10 then 0 else if i < 30 then -100 else 0⟩
          (-50) 20
        = Option.some 10 :=
  ⟨by decide,
    trim_cut_at_first_run.1
      ⟨41, 0, fun i => if i < 10 then 0 else if i < 30 then -100 else 0⟩
      (-50) 1 2 (by decide)
      (by intro j hj; interval_cases j <;> decide)
      (by decide)
      (fun h1 => by decide)
      (fun s hs => absurd hs (by omega))
      (by decide)⟩

/-- C6: a 10 ms chunk is classified silent exactly when its own decibel
level is below the whole buffer's loudness plus `silence_threshold_db` (a
relative drop), the scan `detect_and_trim_silence` runs on exactly that
classification, a non-silent chunk resets the run of silent-chunk start
offsets to empty, and a silent chunk extends it. -/
theorem silence_classification_and_reset (audio : AudioBuf)
    (silence_threshold_db : ℤ) (d i : ℕ) (rest starts : List ℕ) (hd : 0 < d) :
    (silentChunk audio silence_threshold_db i = true ↔
      audio.chunkDB i < audio.dBFS + silence_threshold_db) ∧
    (detect_and_trim_silence audio silence_threshold_db d =
      scanLoop (silentChunk audio silence_threshold_db) d
        (List.range' 0 (numChunks audio.len) 10) []) ∧
    (silentChunk audio silence_threshold_db i = false →
      scanLoop (silentChunk audio silence_threshold_db) d (i :: rest) starts =
        scanLoop (silentChunk audio silence_threshold_db) d rest []) ∧
    (silentChunk audio silence_threshold_db i = true →
      scanLoop (silentChunk audio silence_threshold_db) d (i :: rest) starts =
        if d ≤ (starts.length + 1) * 10 then (starts ++ [i]).head?
        else scanLoop (silentChunk audio silence_threshold_db) d rest
          (starts ++ [i])) := by
  refine ⟨by simp [silentChunk], rfl, ?_, ?_⟩
  · intro h
    exact scanLoop_cons_loud _ d i rest starts h hd
  · intro h
    exact scanLoop_cons_silent _ d i rest starts h

theorem silence_classification_witness :
    silentChunk ⟨100, 0, fun j => if j < 10 then 0 else -100⟩ (-50) 10 = true ∧
      scanLoop (silentChunk ⟨100, 0, fun j => if j < 10 then 0 else -100⟩ (-50))
          1000 [0, 10] [5]
        = scanLoop
            (silentChunk ⟨100, 0, fun j => if j < 10 then 0 else -100⟩ (-50))
            1000 [10] [] :=
  ⟨(silence_classification_and_reset
      ⟨100, 0, fun j => if j < 10 then 0 else -100⟩ (-50) 1000 10 [] []
      (by decide)).1.mpr (by decide),
    (silence_classification_and_reset
      ⟨100, 0, fun j => if j < 10 then 0 else -100⟩ (-50) 1000 0 [10] [5]
      (by decide)).2.2.1 (by decide)⟩

/-! ### List helpers -/

theorem getAppendLen {α : Type} (xs : List α) (y : α) (ys : List α) :
    (xs ++ y :: ys)[xs.length]? = some y := by
  induction xs with
  | nil => simp
  | cons a l ih => simpa using ih

theorem takeGetEq {α : Type} (l : List α) :
    ∀ j k : ℕ, k < j → (l.take j)[k]? = l[k]? := by
  induction l with
  | nil => intro j k _; simp
  | cons a l ih =>
    intro j k hk
    cases j with
    | zero => omega
    | succ j =>
      cases k with
      | zero => simp
      | succ k => simpa using ih j k (by omega)

theorem dropGetEq {α : Type} (l : List α) :
    ∀ a j : ℕ, (l.drop a)[j]? = l[a + j]? := by
  induction l with
  | nil => intro a j; simp
  | cons x l ih =>
    intro a j
    cases a with
    | zero => simp
    | succ a =>
      have e : a + 1 + j = (a + j) + 1 := by omega
      rw [List.drop_succ_cons, ih a j, e, List.getElem?_cons_succ]

theorem takeSuccOfGet {α : Type} (l : List α) :
    ∀ (j : ℕ) (x : α), l[j]? = some x → l.take (j + 1) = l.take j ++ [x] := by
  induction l with
  | nil => intro j x h; simp at h
  | cons a l ih =>
    intro j x h
    cases j with
    | zero =>
      simp at h
      simp [h]
    | succ j =>
      simp only [List.getElem?_cons_succ] at h
      simp only [List.take_succ_cons, List.cons_append, List.cons.injEq, true_and]
      exact ih j x h

theorem memOfGetElem {α : Type} (l : List α) :
    ∀ (k : ℕ) (x : α), l[k]? = some x → x ∈ l := by
  induction l with
  | nil => intro k x h; simp at h
  | cons a l ih =>
    intro k x h
    cases k with
    | zero =>
      simp at h
      simp [h]
    | succ k =>
      simp only [List.getElem?_cons_succ] at h
      exact List.mem_cons_of_mem a (ih k x h)

/-! ### Lemmas about the annotation loop -/

theorem annotateGo_cons (llm : Oracle) (tok : Str → ℕ) (lines : List Str)
    (i : ℕ) (rest : List ℕ) (acc : List Record) (seen : Finset PyVal) :
    annotateGo llm tok lines (i :: rest) acc seen =
      annotateGo llm tok lines rest (acc ++ [recordFor llm tok lines i seen])
        (insert (recordFor llm tok lines i seen).analysis.character seen) := rfl

/-- The loop only appends: the result is the accumulator followed by the
records produced for the remaining indices (which do not depend on the
accumulator). -/
theorem annotateGo_append (llm : Oracle) (tok : Str → ℕ) (lines : List Str) :
    ∀ (idxs : List ℕ) (acc : List Record) (seen : Finset PyVal),
      annotateGo llm tok lines idxs acc seen =
        acc ++ annotateGo llm tok lines idxs [] seen := by
  intro idxs
  induction idxs with
  | nil => intro acc seen; simp [annotateGo]
  | cons i rest ih =>
    intro acc seen
    rw [annotateGo_cons, annotateGo_cons]
    rw [ih (acc ++ [recordFor llm tok lines i seen]),
      ih ([] ++ [recordFor llm tok lines i seen])]
    simp

theorem annotateGo_length (llm : Oracle) (tok : Str → ℕ) (lines : List Str) :
    ∀ (idxs : List ℕ) (acc : List Record) (seen : Finset PyVal),
      (annotateGo llm tok lines idxs acc seen).length = acc.length + idxs.length := by
  intro idxs
  induction idxs with
  | nil => intro acc seen; simp [annotateGo]
  | cons i rest ih =>
    intro acc seen
    rw [annotateGo_cons, ih]
    simp
    omega

theorem fullRecords_length (llm : Oracle) (tok : Str → ℕ) (lines : List Str) :
    (fullRecords llm tok lines).length = lines.length := by
  unfold fullRecords
  rw [annotateGo_length]
  simp

theorem seenSpec_concat (l : List Record) (r : Record) :
    seenSpec (l ++ [r]) = insert r.analysis.character (seenSpec l) := by
  unfold seenSpec
  rw [List.foldl_append]
  rfl

/-- Loop invariant of the fresh run: after `j` iterations the accumulator
holds the first `j` records and `characters_seen` holds exactly the
`character` values of those records. -/
theorem fullRecords_invariant (llm : Oracle) (tok : Str → ℕ) (lines : List Str) :
    ∀ j, j ≤ lines.length →
      fullRecords llm tok lines =
        annotateGo llm tok lines (List.range' j (lines.length - j))
          ((fullRecords llm tok lines).take j)
          (seenSpec ((fullRecords llm tok lines).take j)) := by
  intro j
  induction j with
  | zero =>
    intro _
    simp [seenSpec, fullRecords]
  | succ j ih =>
    intro hj1
    have H := ih (by omega)
    have hrange : List.range' j (lines.length - j)
        = j :: List.range' (j + 1) (lines.length - (j + 1)) := by
      have e : lines.length - j = (lines.length - (j + 1)) + 1 := by omega
      rw [e, List.range'_succ]
    rw [hrange, annotateGo_cons] at H
    have hPlen : ((fullRecords llm tok lines).take j).length = j := by
      rw [List.length_take, fullRecords_length]
      omega
    have hfull : fullRecords llm tok lines =
        ((fullRecords llm tok lines).take j
            ++ [recordFor llm tok lines j (seenSpec ((fullRecords llm tok lines).take j))])
          ++ annotateGo llm tok lines (List.range' (j + 1) (lines.length - (j + 1))) []
              (insert (recordFor llm tok lines j
                  (seenSpec ((fullRecords llm tok lines).take j))).analysis.character
                (seenSpec ((fullRecords llm tok lines).take j))) := by
      conv_lhs => rw [H]
      rw [annotateGo_append]
    have htake : (fullRecords llm tok lines).take (j + 1) =
        (fullRecords llm tok lines).take j
          ++ [recordFor llm tok lines j (seenSpec ((fullRecords llm tok lines).take j))] := by
      conv_lhs => rw [hfull]
      have hlen2 : (((fullRecords llm tok lines).take j)
          ++ [recordFor llm tok lines j (seenSpec ((fullRecords llm tok lines).take j))]).length
          = j + 1 := by
        simp [hPlen]
      rw [← hlen2, List.take_left]
    rw [htake, seenSpec_concat]
    exact H

/-- Record `j` of a fresh run is the analysis of line `j` performed with
the `characters_seen` set accumulated from records `0..j-1`. -/
theorem fullRecords_get (llm : Oracle) (tok : Str → ℕ) (lines : List Str)
    (j : ℕ) (hj : j < lines.length) :
    (fullRecords llm tok lines)[j]? =
      some (recordFor llm tok lines j
        (seenSpec ((fullRecords llm tok lines).take j))) := by
  have H := fullRecords_invariant llm tok lines j (by omega)
  have hrange : List.range' j (lines.length - j)
      = j :: List.range' (j + 1) (lines.length - (j + 1)) := by
    have e : lines.length - j = (lines.length - (j + 1)) + 1 := by omega
    rw [e, List.range'_succ]
  rw [hrange, annotateGo_cons, annotateGo_append] at H
  have hPlen : ((fullRecords llm tok lines).take j).length = j := by
    rw [List.length_take, fullRecords_length]
    omega
  conv_lhs => rw [H]
  rw [List.append_assoc, List.singleton_append]
  have hget := getAppendLen ((fullRecords llm tok lines).take j)
    (recordFor llm tok lines j (seenSpec ((fullRecords llm tok lines).take j)))
    (annotateGo llm tok lines (List.range' (j + 1) (lines.length - (j + 1))) []
      (insert (recordFor llm tok lines j
          (seenSpec ((fullRecords llm tok lines).take j))).analysis.character
        (seenSpec ((fullRecords llm tok lines).take j))))
  rw [hPlen] at hget
  exact hget

theorem seenSpec_init_subset (records : List Record) :
    ∀ (s : Finset PyVal) (v : PyVal), v ∈ s →
      v ∈ records.foldl (fun s r => insert r.analysis.character s) s := by
  induction records with
  | nil => intro s v hv; simpa using hv
  | cons r l ih =>
    intro s v hv
    exact ih (insert r.analysis.character s) v (Finset.mem_insert_of_mem hv)

/-- Every record's `character` value belongs to the accumulated
`characters_seen` set. -/
theorem seenSpec_mem (records : List Record) (r : Record) (hr : r ∈ records) :
    r.analysis.character ∈ seenSpec records := by
  suffices h : ∀ s : Finset PyVal,
      r.analysis.character ∈ records.foldl (fun s x => insert x.analysis.character s) s by
    exact h ∅
  induction records with
  | nil => simp at hr
  | cons a l ih =>
    intro s
    rcases List.mem_cons.mp hr with h | h
    · subst h
      exact seenSpec_init_subset l _ _ (Finset.mem_insert_self _ _)
    · exact ih h (insert a.analysis.character s)

/-- If `characters_seen` holds any non-string value, the prompt
construction raises and the default analysis is substituted. -/
theorem analyze_line_guard_fail (llm : Oracle) (line : Str)
    (context_lines : List Str) (i n : ℕ) (seen : Finset PyVal)
    (h : ¬ ∀ v ∈ seen, PyVal.isStr v = true) :
    analyze_line_with_llm llm line context_lines i n seen = defaultAnalysis := by
  unfold analyze_line_with_llm
  rw [if_neg h]

/-- If the external call fails, the default analysis is substituted. -/
theorem analyze_line_oracle_fail (llm : Oracle) (line : Str)
    (context_lines : List Str) (i n : ℕ) (seen : Finset PyVal)
    (h : llm (contextWithHighlight line context_lines i n) seen = Option.none) :
    analyze_line_with_llm llm line context_lines i n seen = defaultAnalysis := by
  unfold analyze_line_with_llm
  by_cases hg : ∀ v ∈ seen, PyVal.isStr v = true
  · rw [if_pos hg, h]
  · rw [if_neg hg]

/-- If the analyzer call for line `k` of a fresh run fails, record `k` is
the default record for that line. -/
theorem record_default_of_fail (llm : Oracle) (tok : Str → ℕ) (lines : List Str)
    (k : ℕ) (hk : k < lines.length)
    (hfail : llm (contextWithHighlight (lines.getD k []) lines k lines.length)
        (seenSpec ((fullRecords llm tok lines).take k)) = Option.none) :
    (fullRecords llm tok lines)[k]? =
      some ⟨defaultAnalysis, lines.getD k [], tok (lines.getD k [])⟩ := by
  rw [fullRecords_get llm tok lines k hk]
  have hdef := analyze_line_oracle_fail llm (lines.getD k []) lines k lines.length
    (seenSpec ((fullRecords llm tok lines).take k)) hfail
  simp only [recordFor, hdef]

/-! ### Lemmas for the resume analysis

An oracle is *seen-independent* when its result does not depend on the
`characters_seen` argument, *total* when it never fails, and
*schema-conformant* when every returned `character` is a string.  Under
these hypotheses every run produces the same record at every index, which
is what makes interrupted runs resume identically. -/

theorem recordFor_seen_irrelevant (llm : Oracle) (tok : Str → ℕ)
    (lines : List Str)
    (Hseen : ∀ (c : Str) (s1 s2 : Finset PyVal), llm c s1 = llm c s2)
    (i : ℕ) (s1 s2 : Finset PyVal)
    (h1 : ∀ v ∈ s1, PyVal.isStr v = true)
    (h2 : ∀ v ∈ s2, PyVal.isStr v = true) :
    recordFor llm tok lines i s1 = recordFor llm tok lines i s2 := by
  unfold recordFor
  have ha : analyze_line_with_llm llm (lines.getD i []) lines i lines.length s1
      = analyze_line_with_llm llm (lines.getD i []) lines i lines.length s2 := by
    unfold analyze_line_with_llm
    rw [if_pos h1, if_pos h2,
      Hseen (contextWithHighlight (lines.getD i []) lines i lines.length) s1 s2]
  rw [ha]

theorem recordFor_char_isStr (llm : Oracle) (tok : Str → ℕ) (lines : List Str)
    (Htot : ∀ (c : Str) (s : Finset PyVal), llm c s ≠ Option.none)
    (Hchar : ∀ (c : Str) (s : Finset PyVal) (a : Analysis),
      llm c s = Option.some a → PyVal.isStr a.character = true)
    (i : ℕ) (s : Finset PyVal) (hs : ∀ v ∈ s, PyVal.isStr v = true) :
    PyVal.isStr (recordFor llm tok lines i s).analysis.character = true := by
  unfold recordFor
  simp only
  unfold analyze_line_with_llm
  rw [if_pos hs]
  cases hllm : llm (contextWithHighlight (lines.getD i []) lines i lines.length) s with
  | none => exact absurd hllm (Htot _ _)
  | some a => exact Hchar _ _ a hllm

/-- With a total, schema-conformant oracle every `characters_seen` set a
fresh run accumulates consists of strings only. -/
theorem seenSpec_allStr (llm : Oracle) (tok : Str → ℕ) (lines : List Str)
    (Htot : ∀ (c : Str) (s : Finset PyVal), llm c s ≠ Option.none)
    (Hchar : ∀ (c : Str) (s : Finset PyVal) (a : Analysis),
      llm c s = Option.some a → PyVal.isStr a.character = true) :
    ∀ j, j ≤ lines.length →
      ∀ v ∈ seenSpec ((fullRecords llm tok lines).take j), PyVal.isStr v = true := by
  intro j
  induction j with
  | zero =>
    intro _ v hv
    simp [seenSpec] at hv
  | succ j ih =>
    intro hj v hv
    have hjlt : j < lines.length := by omega
    have htake := takeSuccOfGet _ j _ (fullRecords_get llm tok lines j hjlt)
    rw [htake, seenSpec_concat] at hv
    rcases Finset.mem_insert.mp hv with h | h
    · subst h
      exact recordFor_char_isStr llm tok lines Htot Hchar j _ (ih (by omega))
    · exact ih (by omega) v h

/-- Restart lemma: under the three oracle hypotheses, running the loop on
the remaining indices from any prefix of the fresh run's records — with any
all-string `characters_seen` set, in particular the empty one a restart
begins with — reproduces the fresh run's full record sequence. -/
theorem annotateFromPrefix (llm : Oracle) (tok : Str → ℕ) (lines : List Str)
    (Hseen : ∀ (c : Str) (s1 s2 : Finset PyVal), llm c s1 = llm c s2)
    (Htot : ∀ (c : Str) (s : Finset PyVal), llm c s ≠ Option.none)
    (Hchar : ∀ (c : Str) (s : Finset PyVal) (a : Analysis),
      llm c s = Option.some a → PyVal.isStr a.character = true) :
    ∀ (n j : ℕ), j + n = lines.length →
      ∀ seen : Finset PyVal, (∀ v ∈ seen, PyVal.isStr v = true) →
        annotateGo llm tok lines (List.range' j n)
            ((fullRecords llm tok lines).take j) seen
          = fullRecords llm tok lines := by
  intro n
  induction n with
  | zero =>
    intro j hj seen _
    have htake : (fullRecords llm tok lines).take j = fullRecords llm tok lines := by
      apply List.take_of_length_le
      rw [fullRecords_length]
      omega
    simp [annotateGo, htake]
  | succ n ih =>
    intro j hj seen hseen
    have hjlt : j < lines.length := by omega
    rw [List.range'_succ, annotateGo_cons]
    have hSj : ∀ v ∈ seenSpec ((fullRecords llm tok lines).take j),
        PyVal.isStr v = true :=
      seenSpec_allStr llm tok lines Htot Hchar j (by omega)
    have hrec : recordFor llm tok lines j seen
        = recordFor llm tok lines j (seenSpec ((fullRecords llm tok lines).take j)) :=
      recordFor_seen_irrelevant llm tok lines Hseen j seen _ hseen hSj
    rw [hrec]
    have htake := takeSuccOfGet _ j _ (fullRecords_get llm tok lines j hjlt)
    rw [← htake]
    apply ih (j + 1) (by omega)
    intro v hv
    rcases Finset.mem_insert.mp hv with h | h
    · subst h
      exact recordFor_char_isStr llm tok lines Htot Hchar j _ hSj
    · exact hseen v h

/-! ### Concrete annotator inputs used in claim instances -/

/-- Token counter stub standing in for `tiktoken`. -/
def demoTok : Str → ℕ := fun _ => 0

/-- A two-line input script. -/
def demoLinesAB : List Str := [("a".data), ("b".data)]

/-- Twelve distinct input lines. -/
def demo12 : List Str :=
  [("a".data), ("b".data), ("c".data), ("d".data), ("e".data), ("f".data),
    ("g".data), ("h".data), ("i".data), ("j".data), ("k".data), ("l".data)]

/-- A schema-conformant analysis a successful LLM call might return. -/
def demoAnalysis : Analysis where
  is_dialogue := PyVal.vStr ("true".data)
  character := PyVal.vStr ("Bob".data)
  emotion := PyVal.vStr ("calm".data)
  intensity := PyVal.vStr ("3".data)
  pause_after := PyVal.vStr ("1.0".data)
  voice_instructions := PyVal.vStr ("Soft.".data)
  is_scene_transition := PyVal.vStr ("false".data)
  is_action := PyVal.vStr ("false".data)
  sound_effects := []

/-- A deterministic oracle that fails exactly on the highlighted context of
line 0 of `demoLinesAB` and answers `demoAnalysis` elsewhere. -/
def demoLLM : Oracle := fun ctx _ =>
  if ctx = ("[CURRENT LINE]: a\nb".data) then Option.none
  else Option.some demoAnalysis

/-- An oracle that always fails. -/
def failLLM : Oracle := fun _ _ => Option.none

/-- An oracle that always succeeds with the same analysis. -/
def totalLLM : Oracle := fun _ _ => Option.some demoAnalysis

/-- The default record for line "a" (token count 0). -/
def dRecA : Record := ⟨defaultAnalysis, ("a".data), 0⟩

/-- The default record for line "b" (token count 0). -/
def dRecB : Record := ⟨defaultAnalysis, ("b".data), 0⟩

/-- The record `demoLLM` produces for line "b" when the call succeeds. -/
def goodRecB : Record := ⟨demoAnalysis, ("b".data), 0⟩

/-! ### Claim theorems about the line annotator -/

/-- C4 counterexample: with an analyzer that fails on line 0 of a two-line
script, record 0 is the default record, whose speaker label is the null
value `vNone`.  The `characters_seen` set accumulated from records `0..0` —
the set the run passes to the analyzer for line 1 (see
`fullRecords_get`) — is `{vNone}`, not the empty set of non-empty speaker
labels the claim prescribes. -/
theorem seen_speakers_counterexample :
    (fullRecords demoLLM demoTok demoLinesAB)[0]?
        = some ⟨defaultAnalysis, ("a".data), 0⟩ ∧
      seenSpec ((fullRecords demoLLM demoTok demoLinesAB).take 1)
        = {PyVal.vNone} ∧
      ({PyVal.vNone} : Finset PyVal) ≠ (∅ : Finset PyVal) := by
  decide

/-- C4 (amended): a fresh run (no progress store) over a non-empty line
sequence returns exactly one record per line, in input order, and the
`characters_seen` set supplied to the analyzer for line `i` is the set of
*all* speaker-label values of records `0..i-1` — including the null label
of default records and any empty-string label — not only the non-empty
ones. -/
theorem fresh_run_records (llm : Oracle) (tok : Str → ℕ) (lines : List Str)
    (h : lines ≠ []) :
    analyze_script llm tok lines Option.none
        = Except.ok (fullRecords llm tok lines) ∧
      (fullRecords llm tok lines).length = lines.length ∧
      ∀ i, i < lines.length →
        (fullRecords llm tok lines)[i]? =
          some (recordFor llm tok lines i
            (seenSpec ((fullRecords llm tok lines).take i))) := by
  refine ⟨?_, fullRecords_length llm tok lines,
    fun i hi => fullRecords_get llm tok lines i hi⟩
  unfold analyze_script
  rw [if_neg (by simpa using h)]
  rfl

theorem fresh_run_records_witness :
    analyze_script demoLLM demoTok demoLinesAB Option.none
      = Except.ok (fullRecords demoLLM demoTok demoLinesAB) :=
  (fresh_run_records demoLLM demoTok demoLinesAB (by decide)).1

/-- C1 counterexample: uninterrupted, `demoLLM` fails on line 0, so record
0 is the default record and — its null speaker label poisoning
`characters_seen` — record 1 is the default record too.  Interrupting
after line 0 was recorded (store `[dRecA]`, the first record of the
uninterrupted run) and restarting resets `characters_seen` to empty, the
analyzer call for line 1 now succeeds, and the restarted run ends with
`[dRecA, goodRecB]`: a different final sequence than the uninterrupted
`[dRecA, dRecB]`, under the very same deterministic analyzer. -/
theorem resume_differs_counterexample :
    fullRecords demoLLM demoTok demoLinesAB = [dRecA, dRecB] ∧
      analyze_script demoLLM demoTok demoLinesAB (Option.some [dRecA])
        = Except.ok [dRecA, goodRecB] ∧
      goodRecB ≠ dRecB := by
  refine ⟨by decide, rfl, by decide⟩

/-- C1 (amended): the restart does resume at index `k+1`, derived from the
store length, processing each remaining line exactly once; and the final
sequence is identical to the uninterrupted run's whenever the analyzer's
result does not depend on the seen-speakers set, never fails, and always
returns a string speaker label.  (Without those conditions the runs can
diverge, because `characters_seen` is reset to empty on restart instead of
being rebuilt from the store.) -/
theorem resume_identical_of_seen_independent (llm : Oracle) (tok : Str → ℕ)
    (lines : List Str) (k : ℕ)
    (Hseen : ∀ (c : Str) (s1 s2 : Finset PyVal), llm c s1 = llm c s2)
    (Htot : ∀ (c : Str) (s : Finset PyVal), llm c s ≠ Option.none)
    (Hchar : ∀ (c : Str) (s : Finset PyVal) (a : Analysis),
      llm c s = Option.some a → PyVal.isStr a.character = true)
    (hk : k < lines.length) :
    analyze_script llm tok lines
        (Option.some ((fullRecords llm tok lines).take (k + 1)))
      = Except.ok (fullRecords llm tok lines) := by
  unfold analyze_script
  have hne : ¬ lines.isEmpty = true := by
    cases lines with
    | nil => simp at hk
    | cons a l => simp
  rw [if_neg hne]
  have hlen : ((fullRecords llm tok lines).take (k + 1)).length = k + 1 := by
    rw [List.length_take, fullRecords_length]
    omega
  show Except.ok (annotateGo llm tok lines
      (List.range' ((fullRecords llm tok lines).take (k + 1)).length
        (lines.length - ((fullRecords llm tok lines).take (k + 1)).length))
      ((fullRecords llm tok lines).take (k + 1)) ∅) = _
  rw [hlen]
  have := annotateFromPrefix llm tok lines Hseen Htot Hchar
    (lines.length - (k + 1)) (k + 1) (by omega) ∅
    (fun v hv => absurd hv (Finset.not_mem_empty v))
  rw [this]

theorem resume_identical_witness :
    analyze_script totalLLM demoTok demoLinesAB
        (Option.some ((fullRecords totalLLM demoTok demoLinesAB).take 1))
      = Except.ok (fullRecords totalLLM demoTok demoLinesAB) :=
  resume_identical_of_seen_independent totalLLM demoTok demoLinesAB 0
    (fun _ _ _ => rfl)
    (fun _ _ h => Option.noConfusion h)
    (fun _ _ a h => by cases Option.some.inj h; rfl)
    (by decide)

/-- C5 counterexample: a progress store holding two records against a
one-line input.  The annotator surfaces no error: the processing loop runs
zero iterations and the oversized, inconsistent store is returned (and
written to the output files) unchanged. -/
theorem long_store_counterexample :
    analyze_script demoLLM demoTok [("a".data)] (Option.some [dRecA, dRecA])
      = Except.ok [dRecA, dRecA] := rfl

/-- C5 (amended): a progress store at least as long as the input line
sequence is not detected: the annotator fails only on an empty input —
otherwise the resume range `range(start_index, len(lines))` is empty and
the stored records are returned unchanged, with no error surfaced.  A
malformed (unreadable) store is silently discarded: the run restarts from
the beginning exactly as with an empty store. -/
theorem long_store_returns_store (llm : Oracle) (tok : Str → ℕ)
    (lines : List Str) (store : List Record) (h : lines ≠ [])
    (hlen : lines.length ≤ store.length) :
    analyze_script llm tok lines (Option.some store) = Except.ok store ∧
      analyze_script llm tok lines Option.none
        = analyze_script llm tok lines (Option.some []) := by
  refine ⟨?_, rfl⟩
  unfold analyze_script
  rw [if_neg (by simpa using h)]
  have h0 : lines.length - store.length = 0 := by omega
  show Except.ok (annotateGo llm tok lines
      (List.range' store.length (lines.length - store.length)) store ∅) = _
  rw [h0]
  rfl

theorem long_store_returns_store_witness :
    analyze_script demoLLM demoTok demoLinesAB
        (Option.some [dRecA, dRecB, dRecA])
      = Except.ok [dRecA, dRecB, dRecA] :=
  (long_store_returns_store demoLLM demoTok demoLinesAB [dRecA, dRecB, dRecA]
    (by decide) (by decide)).1

/-- C8: when the analyzer call for line `k` of a fresh run fails, the run
does not abort: record `k` is the safe default record (neutral emotion,
intensity 5 of 10, the generic voice instruction, no sound effects, not
dialogue) and the run still produces one record for every line. -/
theorem analyzer_failure_default_record (llm : Oracle) (tok : Str → ℕ)
    (lines : List Str) (k : ℕ) (hk : k < lines.length)
    (hfail : llm (contextWithHighlight (lines.getD k []) lines k lines.length)
        (seenSpec ((fullRecords llm tok lines).take k)) = Option.none) :
    (fullRecords llm tok lines)[k]? =
        some ⟨defaultAnalysis, lines.getD k [], tok (lines.getD k [])⟩ ∧
      (fullRecords llm tok lines).length = lines.length ∧
      defaultAnalysis.emotion = PyVal.vStr ("neutral".data) ∧
      defaultAnalysis.intensity = PyVal.vInt 5 ∧
      defaultAnalysis.voice_instructions
        = PyVal.vStr ("Read in a natural, clear voice.".data) ∧
      defaultAnalysis.sound_effects = [] ∧
      defaultAnalysis.is_dialogue = PyVal.vBool false :=
  ⟨record_default_of_fail llm tok lines k hk hfail,
    fullRecords_length llm tok lines, rfl, rfl, rfl, rfl, rfl⟩

theorem analyzer_failure_default_record_witness :
    (fullRecords failLLM demoTok demoLinesAB)[0]?
      = some ⟨defaultAnalysis, ("a".data), 0⟩ :=
  (analyzer_failure_default_record failLLM demoTok demoLinesAB 0 (by decide)
    rfl).1

/-- C10: once the analyzer call for line `k` of a fresh run fails, the
default record's null speaker label enters `characters_seen`, and from then
on building the analyzer request raises (joining a set containing `None`),
so every later line `j` receives the default record regardless of how the
analyzer would behave on it. -/
theorem failure_poisons_subsequent_lines (llm : Oracle) (tok : Str → ℕ)
    (lines : List Str) (k : ℕ) (hk : k < lines.length)
    (hfail : llm (contextWithHighlight (lines.getD k []) lines k lines.length)
        (seenSpec ((fullRecords llm tok lines).take k)) = Option.none) :
    ∀ j, k < j → j < lines.length →
      (fullRecords llm tok lines)[j]? =
        some ⟨defaultAnalysis, lines.getD j [], tok (lines.getD j [])⟩ := by
  intro j hkj hj
  have hmemk : (⟨defaultAnalysis, lines.getD k [], tok (lines.getD k [])⟩ : Record)
      ∈ (fullRecords llm tok lines).take j := by
    apply memOfGetElem _ k
    rw [takeGetEq _ j k hkj]
    exact record_default_of_fail llm tok lines k hk hfail
  have hvN : PyVal.vNone ∈ seenSpec ((fullRecords llm tok lines).take j) :=
    seenSpec_mem _ _ hmemk
  have hguard : ¬ ∀ v ∈ seenSpec ((fullRecords llm tok lines).take j),
      PyVal.isStr v = true := by
    intro hall
    have hbad := hall PyVal.vNone hvN
    simp [PyVal.isStr] at hbad
  have hdef := analyze_line_guard_fail llm (lines.getD j []) lines j
    lines.length _ hguard
  rw [fullRecords_get llm tok lines j hj]
  simp only [recordFor, hdef]

theorem failure_poisons_witness :
    (fullRecords failLLM demoTok demoLinesAB)[1]?
      = some ⟨defaultAnalysis, ("b".data), 0⟩ :=
  failure_poisons_subsequent_lines failLLM demoTok demoLinesAB 0 (by decide)
    rfl 1 (by decide) (by decide)

/-- C7 counterexample: the window for line 0 of a 12-line script holds 6
lines (the current line and 5 after), not the 7 lines that "up to 5 before
and 6 after" would give; and with two identical lines "a", the highlight
step marks both occurrences, not exactly the current line. -/
theorem context_window_counterexample :
    contextWindow demo12 0 12 = List.take 6 demo12 ∧
      contextWindow demo12 0 12 ≠ List.take 7 demo12 ∧
      contextWithHighlight ("a".data) [("a".data), ("a".data)] 0 2
        = ("[CURRENT LINE]: a\n[CURRENT LINE]: a".data) := by
  decide

/-- C7 (amended): the context window supplied to the analyzer consists of
up to 5 lines before and up to 5 lines after the current line (indices
`max(0, i-5)` to `min(n, i+6)` exclusive), clamped to the sequence bounds —
with both clamps inactive it holds exactly 11 lines with the current line
at position 5 — and the marking step rewrites every occurrence of the
current line's text inside the joined window (so duplicated text is marked
more than once), not exactly the current line. -/
theorem context_window_extent (lines : List Str) (i : ℕ)
    (h5 : 5 ≤ i) (h6 : i + 6 ≤ lines.length) :
    (contextWindow lines i lines.length).length = 11 ∧
      (∀ j, j < 11 →
        (contextWindow lines i lines.length)[j]? = lines[i - 5 + j]?) ∧
      (∀ line : Str, contextWithHighlight line lines i lines.length =
        replaceAll line (highlightMark ++ line)
          (List.intercalate ("\n".data)
            (contextWindow lines i lines.length))) := by
  refine ⟨?_, ?_, fun line => rfl⟩
  · unfold contextWindow
    rw [List.length_drop, List.length_take]
    omega
  · intro j hj
    unfold contextWindow
    rw [dropGetEq, takeGetEq]
    omega

theorem context_window_extent_witness :
    (contextWindow demo12 5 demo12.length).length = 11 ∧
      (contextWindow demo12 5 demo12.length)[0]? = demo12[0]? :=
  ⟨(context_window_extent demo12 5 (by decide) (by decide)).1,
    (context_window_extent demo12 5 (by decide) (by decide)).2.1 0 (by decide)⟩

end ReadBy
